import Mathlib

/-!
Shallow embedding of the s3-concat command-line tool
(src/main.rs, src/cli.rs, src/types.rs).

The S3 service, the regex engine and the XML event reader are external
collaborators of the program; they are modelled as explicit oracle values
(`Gateway`, `Pattern`, a list of XML events) passed to the embedded
functions.  Machine integers (i64 object sizes and part numbers) are
modelled as `Int`; every value involved is far below the i64 range, so no
wrap-around arises.  Rust `HashMap` / `HashSet` are modelled as
insertion-ordered association lists / duplicate-free lists; `HashMap`
iteration order is unspecified in Rust, the model fixes insertion order,
and none of the proved properties depends on that choice.  The
`Option`-typed fields of the rusoto responses that the code `unwrap`s or
`expect`s (`entry.key`, `created.upload_id`, `parts_result.parts`) are
modelled as always present, matching the code's assumption; no claim
exercises their absence.  The `loop` in `construct_uploads` is embedded
with explicit fuel: a `none` overall result means the loop never finished.
-/

namespace S3Concat

/-- Entry of one object inside a ListObjectsV2 page: its key and its
size in bytes (i64 in the source, modelled as Int). -/
structure Entry where
  key : String
  size : Int
deriving DecidableEq, Repr

/-- Page returned by ListObjectsV2: the optional `contents` vector and the
optional `next_continuation_token`. -/
structure Page where
  contents : Option (List Entry)
  nextToken : Option String
deriving DecidableEq, Repr

/-- Part descriptor as returned by ListParts.  The source maps each
listed part field by field into a `CompletedPart` (same two fields), so a
single type serves for both. -/
structure Part where
  eTag : Option String
  partNumber : Option Int
deriving DecidableEq, Repr

/-- Call record of one S3 request issued by the program, in issue order.
This is the observable trace the claims speak about. -/
inductive Call where
  | listObjectsV2 (token : Option String)
  | createMultipartUpload (key : String)
  | uploadPartCopy (copySource : String) (key : String) (partNumber : Int) (uploadId : String)
  | listParts (key : String) (uploadId : String)
  | completeMultipartUpload (key : String) (uploadId : String) (parts : List Part)
  | abortMultipartUpload (key : String) (uploadId : String)
  | deleteObject (key : String)
deriving DecidableEq, Repr

/-- Gateway oracle: the responses the S3 backend gives to each request.
An `Except.error` carries the message of the failing call (the `?`
operator in the source converts it into a `ConcatError`). -/
structure Gateway where
  listObjects : Option String → Except String Page
  createMultipartUpload : String → Except String String
  uploadPartCopy : String → String → Int → String → Except String Unit
  listParts : String → String → Except String (List Part)
  completeMultipartUpload : String → String → List Part → Except String Unit
  abortMultipartUpload : String → String → Except String Unit
  deleteObject : String → Except String Unit

/-- Pattern oracle: the compiled source regex together with the target
template.  `isMatch` embeds `pattern.is_match(&key)` and `replaceAll`
embeds `pattern.replace_all(&key, target)`. -/
structure Pattern where
  isMatch : String → Bool
  replaceAll : String → String

/-- Insert into a `HashSet` modelled as a duplicate-free list kept in
insertion order: a no-op when the element is already present. -/
def insertS (s : List String) (k : String) : List String :=
  if k ∈ s then s else s ++ [k]

/-- Lookup in a `HashMap` modelled as an association list. -/
def lookupA : List (String × α) → String → Option α
  | [], _ => none
  | p :: rest, k => if p.1 = k then some p.2 else lookupA rest k

/-- Insert into a `HashMap` modelled as an association list: replaces the
value when the key is present, appends otherwise. -/
def insertA (m : List (String × α)) (k : String) (v : α) : List (String × α) :=
  if (lookupA m k).isSome then
    m.map (fun p => if p.1 = k then (k, v) else p)
  else
    m ++ [(k, v)]

/-- Remove from a `HashMap` modelled as an association list
(`HashMap::remove`). -/
def removeA (m : List (String × α)) (k : String) : List (String × α) :=
  m.filter (fun p => p.1 ≠ k)

/-- Add a source key to the set held for `uploadId`
(`sources.get_mut(&*upload_id).unwrap()` followed by `sources.insert(key)`). -/
def addSource (m : List (String × List String)) (u : String) (k : String) :
    List (String × List String) :=
  m.map (fun p => if p.1 = u then (p.1, insertS p.2 k) else p)

/-- State threaded through `construct_uploads`: the two `&mut` maps
(`upload_id → source keys` and `target → upload_id`), the S3 call trace,
and the grouping report (one `(key, target)` pair per
"Concatenating key -> target" line printed). -/
structure DiscoSt where
  sources : List (String × List String)
  targets : List (String × String)
  trace : List Call
  report : List (String × String)
deriving DecidableEq, Repr

/-- Initial state of a run: both maps empty, nothing issued or printed. -/
def initSt : DiscoSt := ⟨[], [], [], []⟩

/-- Lazy session creation step of the entry loop (src/main.rs lines
276-291): when the resolved target has no upload identifier yet, issue
CreateMultipartUpload and bind the fresh identifier into both maps.  The
error case carries the state with the issued call, as the `&mut` maps
keep their progress when `?` propagates. -/
def ensureUpload (gw : Gateway) (st : DiscoSt) (fullTarget : String) :
    Except (DiscoSt × String) DiscoSt :=
  if (lookupA st.targets fullTarget).isSome then
    Except.ok st
  else
    let st1 := { st with
      trace := st.trace ++ [Call.createMultipartUpload fullTarget] }
    match gw.createMultipartUpload fullTarget with
    | Except.error msg => Except.error (st1, msg)
    | Except.ok upload =>
      Except.ok { st1 with
        targets := insertA st1.targets fullTarget upload,
        sources := insertA st1.sources upload [] }

/-- Part-copy step of the entry loop (src/main.rs lines 293-315): fetch
the upload identifier and its recorded source set (the `expect`/`unwrap`
lookups, modelled with `getD` and only reached when the lookups succeed),
issue UploadPartCopy with part number `len + 1`, and on success record
the source key. -/
def copyPart (gw : Gateway) (bucket : String) (st : DiscoSt)
    (key fullTarget : String) : DiscoSt × Option String :=
  let partSource := bucket ++ "/" ++ key
  let uploadId := (lookupA st.targets fullTarget).getD ""
  let srcs := (lookupA st.sources uploadId).getD []
  let pn : Int := srcs.length + 1
  let st2 := { st with
    trace := st.trace ++ [Call.uploadPartCopy partSource fullTarget pn uploadId] }
  match gw.uploadPartCopy partSource fullTarget pn uploadId with
  | Except.error msg => (st2, some msg)
  | Except.ok _ =>
    ({ st2 with sources := addSource st2.sources uploadId key }, none)

/-- Body of the `for entry in response.contents.unwrap()` loop of
`construct_uploads` (src/main.rs lines 242-316) for one entry.  Returns
the updated state and `some msg` when the body returns `Err` (which the
caller propagates). -/
def processEntry (gw : Gateway) (pat : Pattern) (bucket : String) (dry : Bool)
    (st : DiscoSt) (e : Entry) : DiscoSt × Option String :=
  if ¬ pat.isMatch e.key then
    (st, none)
  else if e.size < 5000000 then
    (st, some ("Unable to concat files below 5MB: " ++ e.key))
  else
    let fullTarget := pat.replaceAll e.key
    if fullTarget = e.key then
      (st, none)
    else
      let st0 := { st with report := st.report ++ [(e.key, fullTarget)] }
      if dry then
        (st0, none)
      else
        match ensureUpload gw st0 fullTarget with
        | Except.error (st1, msg) => (st1, some msg)
        | Except.ok st1 => copyPart gw bucket st1 e.key fullTarget

/-- Folding `processEntry` over the entries of one page, stopping at the
first error exactly as `?` would. -/
def processEntries (gw : Gateway) (pat : Pattern) (bucket : String) (dry : Bool) :
    DiscoSt → List Entry → DiscoSt × Option String
  | st, [] => (st, none)
  | st, e :: es =>
    match processEntry gw pat bucket dry st e with
    | (st1, some msg) => (st1, some msg)
    | (st1, none) => processEntries gw pat bucket dry st1 es

/-- Pagination `loop` of `construct_uploads` (src/main.rs lines 220-325),
with fuel making nontermination observable as `none`.  Note the faithful
embedding of the `continue` on `contents.is_none()`: it neither updates
the token nor checks `next_continuation_token`. -/
def pageLoop (gw : Gateway) (pat : Pattern) (bucket : String) (dry : Bool) :
    Nat → Option String → DiscoSt → Option (DiscoSt × Option String)
  | 0, _, _ => none
  | fuel + 1, token, st =>
    let st0 := { st with trace := st.trace ++ [Call.listObjectsV2 token] }
    match gw.listObjects token with
    | Except.error msg => some (st0, some msg)
    | Except.ok page =>
      match page.contents with
      | none => pageLoop gw pat bucket dry fuel token st0
      | some entries =>
        match processEntries gw pat bucket dry st0 entries with
        | (st1, some msg) => some (st1, some msg)
        | (st1, none) =>
          match page.nextToken with
          | none => some (st1, none)
          | some t => pageLoop gw pat bucket dry fuel (some t) st1

/-- Completion pass of `main` (src/main.rs lines 106-176): for every
`(key, upload_id)` in `targets`, list the parts, complete the upload, and
on any failure abort the session and continue.  On a completion failure
the code runs `sources.remove(&key)` with the target key, against the map
keyed by upload id.  Returns the final `sources` map and the grown trace. -/
def completeLoop (gw : Gateway) :
    List (String × String) → List (String × List String) → List Call →
    List (String × List String) × List Call
  | [], sources, trace => (sources, trace)
  | p :: rest, sources, trace =>
    let key := p.1
    let uploadId := p.2
    let trace0 := trace ++ [Call.listParts key uploadId]
    match gw.listParts key uploadId with
    | Except.error _ =>
      completeLoop gw rest sources (trace0 ++ [Call.abortMultipartUpload key uploadId])
    | Except.ok parts =>
      let trace1 := trace0 ++ [Call.completeMultipartUpload key uploadId parts]
      match gw.completeMultipartUpload key uploadId parts with
      | Except.error _ =>
        completeLoop gw rest (removeA sources key)
          (trace1 ++ [Call.abortMultipartUpload key uploadId])
      | Except.ok _ => completeLoop gw rest sources trace1

/-- Deletion pass of `main` (src/main.rs lines 179-197): for every value
set of `sources`, request deletion of each key; failures are only logged. -/
def deleteLoop (gw : Gateway) :
    List (String × List String) → List Call → List Call
  | [], trace => trace
  | (_, keys) :: rest, trace =>
    deleteLoop gw rest (trace ++ keys.map Call.deleteObject)

/-- Decidable equality for the `Except`-typed run result. -/
instance : DecidableEq (Except String Unit) := fun a b =>
  match a, b with
  | Except.ok (), Except.ok () => isTrue rfl
  | Except.error x, Except.error y =>
    if h : x = y then isTrue (by rw [h]) else isFalse (by intro hc; cases hc; exact h rfl)
  | Except.ok (), Except.error _ => isFalse (by intro hc; cases hc)
  | Except.error _, Except.ok () => isFalse (by intro hc; cases hc)

/-- Outcome of one whole run: the value `main` returns, the S3 call
trace, the grouping report, and the final contents of the two maps. -/
structure RunOut where
  result : Except String Unit
  trace : List Call
  report : List (String × String)
  sources : List (String × List String)
  targets : List (String × String)
deriving DecidableEq, Repr

/-- Embedding of `main` (src/main.rs lines 25-201) after argument
parsing.  `cleanup` is the `--cleanup`/`-c` flag that cli.rs defines
(src/cli.rs lines 13-18); `main` never reads it, which the embedding
makes visible by taking and ignoring it. -/
def mainRun (gw : Gateway) (pat : Pattern) (bucket : String)
    (dry : Bool) (cleanup : Bool) (fuel : Nat) : Option RunOut :=
  match pageLoop gw pat bucket dry fuel none initSt with
  | none => none
  | some (st, errOpt) =>
    if dry then
      some ⟨Except.ok (), st.trace, st.report, st.sources, st.targets⟩
    else
      match errOpt with
      | some msg =>
        let trace := st.targets.foldl
          (fun tr p => tr ++ [Call.abortMultipartUpload p.1 p.2]) st.trace
        some ⟨Except.error msg, trace, st.report, st.sources, st.targets⟩
      | none =>
        let pair := completeLoop gw st.targets st.sources st.trace
        let trace := deleteLoop gw pair.1 pair.2
        some ⟨Except.ok (), trace, st.report, pair.1, st.targets⟩

/-- Predicate for CompleteMultipartUpload calls. -/
def isCompleteCall : Call → Bool
  | Call.completeMultipartUpload _ _ _ => true
  | _ => false

/-- Predicate for DeleteObject calls. -/
def isDeleteCall : Call → Bool
  | Call.deleteObject _ => true
  | _ => false

/-- Predicate for the five mutating S3 calls (everything but listing). -/
def isMutationCall : Call → Bool
  | Call.listObjectsV2 _ => false
  | Call.listParts _ _ => false
  | _ => true

/-- Predicate for the calls discovery may issue (listing, create, copy). -/
def isDiscoveryCall : Call → Bool
  | Call.listObjectsV2 _ => true
  | Call.createMultipartUpload _ => true
  | Call.uploadPartCopy _ _ _ _ => true
  | _ => false

/-- Projection of a run outcome onto the value `main` returns. -/
def resultOf (o : Option RunOut) : Option (Except String Unit) :=
  o.map RunOut.result

/-- Projection of a run outcome onto the issued S3 call trace. -/
def traceOf (o : Option RunOut) : List Call :=
  (o.map RunOut.trace).getD []

/-- Projection of a run outcome onto the final upload-id-to-sources map. -/
def sourcesOf (o : Option RunOut) : List (String × List String) :=
  (o.map RunOut.sources).getD []

/-- The `(copy_source, part_number)` pairs of the UploadPartCopy calls
issued for one upload id, in issue order. -/
def copyPairs (u : String) : List Call → List (String × Int)
  | [] => []
  | Call.uploadPartCopy src _ n u2 :: rest =>
    if u2 = u then (src, n) :: copyPairs u rest else copyPairs u rest
  | _ :: rest => copyPairs u rest

/-- Reference shape of the copy calls the discovery loop issues for one
session when it copies the keys `ks` in order, starting from the already
recorded set `seen`: each call names `bucket/key` and part number
`|set so far| + 1`, and the set grows only on first occurrence. -/
def taggedCalls (bucket : String) : List String → List String → List (String × Int)
  | [], _ => []
  | k :: rest, seen =>
    (bucket ++ "/" ++ k, (seen.length : Int) + 1) :: taggedCalls bucket rest (insertS seen k)

/-- Gateway whose CreateMultipartUpload answers never repeat an upload id
across distinct target keys (S3 guarantees fresh upload ids). -/
def GwInj (gw : Gateway) : Prop :=
  ∀ t1 t2 u, gw.createMultipartUpload t1 = Except.ok u →
    gw.createMultipartUpload t2 = Except.ok u → t1 = t2

/-- Predicate for UploadPartCopy calls. -/
def isCopyCall : Call → Bool
  | Call.uploadPartCopy _ _ _ _ => true
  | _ => false

/-- Session invariant of the discovery loop, tying the two registry maps
to the issued copy calls: every target is bound to the upload id its
create call returned; target keys are distinct; the sources map is keyed
exactly by the targets map's upload ids; every issued copy call names a
registered upload id; and for every session, the copy calls issued so far
are exactly the reference shape `taggedCalls` for some discovery-ordered
key list whose first-occurrence set is the recorded source set. -/
def Inv (gw : Gateway) (bucket : String) (st : DiscoSt) : Prop :=
  (∀ p ∈ st.targets, gw.createMultipartUpload p.1 = Except.ok p.2) ∧
  (st.targets.map Prod.fst).Nodup ∧
  st.sources.map Prod.fst = st.targets.map Prod.snd ∧
  (∀ s k n u, Call.uploadPartCopy s k n u ∈ st.trace → u ∈ st.targets.map Prod.snd) ∧
  (∀ p ∈ st.sources, ∃ ks, copyPairs p.1 st.trace = taggedCalls bucket ks [] ∧
    p.2 = List.foldl insertS [] ks)

/-- Gateway whose create and part-copy requests always succeed (a live
run in which the storage accepts every mutation). -/
def NoMutFail (gw : Gateway) : Prop :=
  (∀ k, ∃ u, gw.createMultipartUpload k = Except.ok u) ∧
  (∀ src key n u, gw.uploadPartCopy src key n u = Except.ok ())

/-- Grouping-report contribution of one listed entry: one line exactly
when the entry matches, is large enough, and does not resolve to itself. -/
def reportDelta (pat : Pattern) (e : Entry) : List (String × String) :=
  if pat.isMatch e.key then
    if e.size < 5000000 then []
    else if pat.replaceAll e.key = e.key then []
    else [(e.key, pat.replaceAll e.key)]
  else []

/-- Discovery error contributed by one listed entry, independent of dry
mode: the size-constraint error exactly when the entry matches and is
undersized. -/
def entryErr (pat : Pattern) (e : Entry) : Option String :=
  if pat.isMatch e.key then
    if e.size < 5000000 then some ("Unable to concat files below 5MB: " ++ e.key)
    else none
  else none

/-!  XML event model for the `ConcatError` conversion (src/types.rs lines
56-98).  The quick_xml reader is an external collaborator; its event
stream for the error text is passed as an explicit list.  `decodeError`
stands for `read_event` returning `Err(_)`. -/

/-- Event produced by the XML reader. -/
inductive XmlEvent where
  | startTag (name : String)
  | endTag (name : String)
  | text (s : String)
  | eof
  | decodeError
deriving DecidableEq, Repr

/-- Embeds quick_xml `read_to_end(end, ...)`: skip events, tracking the
nesting depth of same-named tags, until the matching end tag; `false`
when the reader errors or hits end-of-file first. -/
def readToEnd (endName : String) : Nat → List XmlEvent → Bool
  | _, [] => false
  | _, XmlEvent.eof :: _ => false
  | _, XmlEvent.decodeError :: _ => false
  | depth, XmlEvent.startTag n :: rest =>
    readToEnd endName (if n = endName then depth + 1 else depth) rest
  | depth, XmlEvent.endTag n :: rest =>
    if n = endName then
      match depth with
      | 0 => true
      | d + 1 => readToEnd endName d rest
    else readToEnd endName depth rest
  | depth, XmlEvent.text _ :: rest => readToEnd endName depth rest

/-- Embeds quick_xml `read_text(end, ...)` as used at src/types.rs line
80: a text event followed by a skip to the matching end tag yields the
text; an immediate matching end tag yields the empty string; anything
else (end-of-file, reader error, an unexpected event) is a decode
failure, returned as `none`. -/
def readText (endName : String) : List XmlEvent → Option String
  | [] => none
  | XmlEvent.text s :: rest => if readToEnd endName 0 rest then some s else none
  | XmlEvent.endTag n :: _ => if n = endName then some "" else none
  | _ :: _ => none

/-- Embeds the scanning loop of the rusoto error conversion (src/types.rs
lines 70-90): walk the events; end-of-file or a reader error falls back to
the raw message; a `Message` start tag reads the element text, where the
`expect` at line 81 turns a decode failure into a panic, modelled as
`none`.  An exhausted event list is treated like end-of-file. -/
def scanForMessage (raw : String) : List XmlEvent → Option String
  | [] => some raw
  | XmlEvent.eof :: _ => some raw
  | XmlEvent.decodeError :: _ => some raw
  | XmlEvent.startTag n :: rest =>
    if n = "Message" then
      match readText ("Message") rest with
      | some t => some t
      | none => none
    else scanForMessage raw rest
  | _ :: rest => scanForMessage raw rest

/-- Leading characters `msg.starts_with("<?xml")` tests for. -/
def xmlLead : List Char := ['<', '?', 'x', 'm', 'l']

/-- Embeds `derive_from_rusoto` (src/types.rs lines 56-98): the backend
error's display text, plus the XML event stream the quick_xml reader
yields for it.  `some s` is the `ConcatError` message produced; `none`
is the panic of the `expect` at line 81.  The `starts_with` test is
spelled over the character list so it stays kernel-computable. -/
def deriveFromRusoto (msg : String) (events : List XmlEvent) : Option String :=
  if xmlLead.isPrefixOf msg.data then scanForMessage msg events else some msg

/-- Event lists the scanning loop walks straight through: no `Message`
start tag, no end-of-file, no reader error. -/
def passThrough : List XmlEvent → Bool
  | [] => true
  | XmlEvent.startTag n :: rest => if n = "Message" then false else passThrough rest
  | XmlEvent.endTag _ :: rest => passThrough rest
  | XmlEvent.text _ :: rest => passThrough rest
  | XmlEvent.eof :: _ => false
  | XmlEvent.decodeError :: _ => false

/-- Event lists on which the scanning loop reaches its end (end-of-file,
a reader error, or an exhausted list) without meeting a `Message` start
tag. -/
def noMessageTag : List XmlEvent → Bool
  | [] => true
  | XmlEvent.eof :: _ => true
  | XmlEvent.decodeError :: _ => true
  | XmlEvent.startTag n :: rest => if n = "Message" then false else noMessageTag rest
  | _ :: rest => noMessageTag rest

/-!  Concrete scenarios used by the counterexamples and witnesses.  Each
gateway answers every request deterministically. -/

/-- Pattern used by several scenarios: matches the two keys `a.part` and
`b.part`, resolving every match to the single target `merged`. -/
def patAB : Pattern :=
  ⟨fun k => k == "a.part" || k == "b.part", fun _ => "merged"⟩

/-- Pattern whose every match resolves to itself (self-target). -/
def patSelf : Pattern :=
  ⟨fun k => k == "x", fun k => k⟩

/-- Pattern for the two-session scenario: `a1 → A`, `b1 → B`. -/
def patTwo : Pattern :=
  ⟨fun k => k == "a1" || k == "b1", fun k => if k == "a1" then "A" else "B"⟩

/-- Gateway whose single listing page holds one 6 MB object and one 1 byte
object, both matching; every mutation succeeds. -/
def gwUndersized : Gateway := {
  listObjects := fun _ => Except.ok ⟨some [⟨"a.part", 6000000⟩, ⟨"b.part", 1⟩], none⟩,
  createMultipartUpload := fun k => Except.ok ("up-" ++ k),
  uploadPartCopy := fun _ _ _ _ => Except.ok (),
  listParts := fun _ _ => Except.ok [],
  completeMultipartUpload := fun _ _ _ => Except.ok (),
  abortMultipartUpload := fun _ _ => Except.ok (),
  deleteObject := fun _ => Except.ok () }

/-- Gateway whose single listing page holds one 6 MB matching object;
every call succeeds, and upload ids equal the target key (so its
CreateMultipartUpload answers are trivially injective). -/
def gwHappy : Gateway := { gwUndersized with
  listObjects := fun _ => Except.ok ⟨some [⟨"a.part", 6000000⟩], none⟩,
  createMultipartUpload := fun k => Except.ok k }

/-- Gateway for the two-session scenario: two 6 MB objects forming two
sessions; CompleteMultipartUpload fails for target `A` and succeeds for
target `B`; everything else succeeds. -/
def gwTwoSessions : Gateway := { gwUndersized with
  listObjects := fun _ => Except.ok ⟨some [⟨"a1", 6000000⟩, ⟨"b1", 6000000⟩], none⟩,
  createMultipartUpload := fun k => Except.ok ("u" ++ k),
  completeMultipartUpload := fun k _ _ =>
    if k = "A" then Except.error ("complete failed") else Except.ok () }

/-- Gateway whose single listing page repeats the key `a.part` and then
lists `b.part`, all 6 MB; every mutation succeeds. -/
def gwDup : Gateway := { gwUndersized with
  listObjects := fun _ =>
    Except.ok ⟨some [⟨"a.part", 6000000⟩, ⟨"a.part", 6000000⟩, ⟨"b.part", 6000000⟩], none⟩ }

/-- Gateway every one of whose listing pages has no contents and no next
token. -/
def gwNoContents : Gateway := { gwUndersized with
  listObjects := fun _ => Except.ok ⟨none, none⟩ }

/-- Gateway every one of whose listing pages has no contents but does
carry a next continuation token. -/
def gwNoContentsTok : Gateway := { gwUndersized with
  listObjects := fun _ => Except.ok ⟨none, some ("t")⟩ }

/-- Gateway whose single listing page holds one 4 MB object with key `x`
(matching `patSelf`, so it resolves to itself). -/
def gwSelfSmall : Gateway := { gwUndersized with
  listObjects := fun _ => Except.ok ⟨some [⟨"x", 4000000⟩], none⟩ }

/-- Gateway whose single listing page holds one 6 MB matching object and
whose UploadPartCopy always fails. -/
def gwCopyFail : Gateway := { gwUndersized with
  listObjects := fun _ => Except.ok ⟨some [⟨"a.part", 6000000⟩], none⟩,
  createMultipartUpload := fun _ => Except.ok ("u1"),
  uploadPartCopy := fun _ _ _ _ => Except.error ("copy failed") }

/-! ### Generic lemmas about the map and set helpers -/

theorem lookupA_append {α : Type} (m1 m2 : List (String × α)) (k : String) :
    lookupA (m1 ++ m2) k =
      match lookupA m1 k with
      | some v => some v
      | none => lookupA m2 k := by
  induction m1 with
  | nil => simp [lookupA]
  | cons p rest ih =>
    by_cases h : p.1 = k <;> simp [lookupA, h, ih]

theorem lookupA_eq_none_iff {α : Type} (m : List (String × α)) (k : String) :
    lookupA m k = none ↔ k ∉ m.map Prod.fst := by
  induction m with
  | nil => simp [lookupA]
  | cons p rest ih =>
    by_cases h : p.1 = k
    · simp [lookupA, h]
    · have h1 : lookupA (p :: rest) k = lookupA rest k := by simp [lookupA, h]
      rw [h1, ih]
      simp only [List.map_cons, List.mem_cons]
      constructor
      · intro hn hor
        rcases hor with he | hm
        · exact h he.symm
        · exact hn hm
      · intro hn hm
        exact hn (Or.inr hm)

theorem mem_of_lookupA {α : Type} {m : List (String × α)} {k : String} {v : α}
    (h : lookupA m k = some v) : (k, v) ∈ m := by
  induction m with
  | nil => simp [lookupA] at h
  | cons p rest ih =>
    rcases p with ⟨a, b⟩
    by_cases hk : a = k
    · subst hk
      simp [lookupA] at h
      subst h
      exact List.mem_cons_self _ _
    · simp [lookupA, hk] at h
      exact List.mem_cons_of_mem _ (ih h)

theorem lookupA_of_mem_nodup {α : Type} {m : List (String × α)} {p : String × α}
    (hnd : (m.map Prod.fst).Nodup) (hp : p ∈ m) : lookupA m p.1 = some p.2 := by
  induction m with
  | nil => simp at hp
  | cons q rest ih =>
    simp only [List.map_cons, List.nodup_cons] at hnd
    rcases List.mem_cons.mp hp with h | h
    · subst h
      simp [lookupA]
    · have hne : q.1 ≠ p.1 := by
        intro he
        apply hnd.1
        rw [he]
        exact List.mem_map_of_mem Prod.fst h
      simp only [lookupA, hne, if_false]
      exact ih hnd.2 h

theorem insertA_of_not_mem {α : Type} {m : List (String × α)} {k : String} (v : α)
    (h : lookupA m k = none) : insertA m k v = m ++ [(k, v)] := by
  simp [insertA, h]

theorem lookupA_insertA {α : Type} (m : List (String × α)) (k : String) (v : α) :
    lookupA (insertA m k v) k = some v := by
  unfold insertA
  by_cases h : (lookupA m k).isSome
  · simp [h]
    induction m with
    | nil => simp [lookupA] at h
    | cons p rest ih =>
      by_cases hk : p.1 = k
      · simp [lookupA, hk]
      · simp [lookupA, hk] at h ⊢
        exact ih h
  · simp [h, lookupA_append, Option.not_isSome_iff_eq_none.mp h, lookupA]

theorem insertS_of_mem {s : List String} {k : String} (h : k ∈ s) :
    insertS s k = s := by
  simp [insertS, h]

theorem insertS_of_not_mem {s : List String} {k : String} (h : k ∉ s) :
    insertS s k = s ++ [k] := by
  simp [insertS, h]

/-! ### Sequencing lemma for the entry loop -/

theorem processEntries_append (gw : Gateway) (pat : Pattern) (bucket : String)
    (dry : Bool) (es1 es2 : List Entry) (st : DiscoSt) :
    processEntries gw pat bucket dry st (es1 ++ es2) =
      match processEntries gw pat bucket dry st es1 with
      | (st1, some msg) => (st1, some msg)
      | (st1, none) => processEntries gw pat bucket dry st1 es2 := by
  induction es1 generalizing st with
  | nil => simp [processEntries]
  | cons e rest ih =>
    simp only [List.cons_append, processEntries]
    rcases h : processEntry gw pat bucket dry st e with ⟨st1, msg⟩
    cases msg <;> simp [ih]

/-! ### Classification of the calls each phase issues -/

theorem ensureUpload_ok_trace {gw : Gateway} {st : DiscoSt} {t : String} {st1 : DiscoSt}
    (h : ensureUpload gw st t = Except.ok st1) :
    ∀ c ∈ st1.trace, c ∈ st.trace ∨ isDiscoveryCall c = true := by
  unfold ensureUpload at h
  by_cases hl : (lookupA st.targets t).isSome
  · simp only [hl, if_true] at h
    cases h
    exact fun c hc => Or.inl hc
  · simp only [hl, if_false] at h
    cases hc : gw.createMultipartUpload t with
    | error msg => rw [hc] at h; cases h
    | ok u =>
      rw [hc] at h
      cases h
      intro c hc2
      rcases List.mem_append.mp hc2 with h1 | h1
      · exact Or.inl h1
      · rcases List.mem_singleton.mp h1 with rfl
        exact Or.inr rfl

theorem ensureUpload_err_trace {gw : Gateway} {st : DiscoSt} {t : String} {st1 : DiscoSt}
    {msg : String} (h : ensureUpload gw st t = Except.error (st1, msg)) :
    ∀ c ∈ st1.trace, c ∈ st.trace ∨ isDiscoveryCall c = true := by
  unfold ensureUpload at h
  by_cases hl : (lookupA st.targets t).isSome
  · simp only [hl, if_true] at h
    cases h
  · simp only [hl, if_false] at h
    cases hc : gw.createMultipartUpload t with
    | error m =>
      rw [hc] at h
      cases h
      intro c hc2
      rcases List.mem_append.mp hc2 with h1 | h1
      · exact Or.inl h1
      · rcases List.mem_singleton.mp h1 with rfl
        exact Or.inr rfl
    | ok u => rw [hc] at h; cases h

theorem copyPart_trace (gw : Gateway) (bucket : String) (st : DiscoSt) (k t : String) :
    ∃ n u, (copyPart gw bucket st k t).1.trace
      = st.trace ++ [Call.uploadPartCopy (bucket ++ "/" ++ k) t n u] := by
  simp only [copyPart]
  split <;> exact ⟨_, _, rfl⟩

theorem processEntry_calls (gw : Gateway) (pat : Pattern) (bucket : String)
    (dry : Bool) (st : DiscoSt) (e : Entry) :
    ∀ c ∈ (processEntry gw pat bucket dry st e).1.trace,
      c ∈ st.trace ∨ isDiscoveryCall c = true := by
  simp only [processEntry]
  split
  · exact fun c hc => Or.inl hc
  split
  · exact fun c hc => Or.inl hc
  split
  · exact fun c hc => Or.inl hc
  split
  · exact fun c hc => Or.inl hc
  rcases he : ensureUpload gw
      { st with report := st.report ++ [(e.key, pat.replaceAll e.key)] }
      (pat.replaceAll e.key) with ⟨st1, msg⟩ | st1
  · show ∀ c ∈ st1.trace, c ∈ st.trace ∨ isDiscoveryCall c = true
    intro c hc
    exact ensureUpload_err_trace he c hc
  · show ∀ c ∈ (copyPart gw bucket st1 e.key (pat.replaceAll e.key)).1.trace,
        c ∈ st.trace ∨ isDiscoveryCall c = true
    intro c hc
    rcases copyPart_trace gw bucket st1 e.key (pat.replaceAll e.key) with ⟨n, u, ht⟩
    rw [ht] at hc
    rcases List.mem_append.mp hc with h1 | h1
    · exact ensureUpload_ok_trace he c h1
    · rcases List.mem_singleton.mp h1 with rfl
      exact Or.inr rfl

theorem processEntries_calls (gw : Gateway) (pat : Pattern) (bucket : String)
    (dry : Bool) (es : List Entry) (st : DiscoSt) :
    ∀ c ∈ (processEntries gw pat bucket dry st es).1.trace,
      c ∈ st.trace ∨ isDiscoveryCall c = true := by
  induction es generalizing st with
  | nil => exact fun c hc => Or.inl hc
  | cons e rest ih =>
    simp only [processEntries]
    rcases hp : processEntry gw pat bucket dry st e with ⟨st1, msg⟩
    have h1 : ∀ c ∈ st1.trace, c ∈ st.trace ∨ isDiscoveryCall c = true := by
      intro c hc
      have := processEntry_calls gw pat bucket dry st e c
      rw [hp] at this
      exact this hc
    cases msg with
    | some m => exact h1
    | none =>
      intro c hc
      rcases ih st1 c hc with h2 | h2
      · exact h1 c h2
      · exact Or.inr h2

theorem pageLoop_calls (gw : Gateway) (pat : Pattern) (bucket : String) (dry : Bool)
    (fuel : Nat) (token : Option String) (st : DiscoSt) (st1 : DiscoSt)
    (eo : Option String) (h : pageLoop gw pat bucket dry fuel token st = some (st1, eo)) :
    ∀ c ∈ st1.trace, c ∈ st.trace ∨ isDiscoveryCall c = true := by
  induction fuel generalizing token st with
  | zero => cases h
  | succ n ih =>
    have hbase : ∀ c ∈ st.trace ++ [Call.listObjectsV2 token],
        c ∈ st.trace ∨ isDiscoveryCall c = true := by
      intro c hc
      rcases List.mem_append.mp hc with h1 | h1
      · exact Or.inl h1
      · rcases List.mem_singleton.mp h1 with rfl
        exact Or.inr rfl
    simp only [pageLoop] at h
    split at h
    · cases h
      exact hbase
    · split at h
      · intro c hmem
        rcases ih token _ h c hmem with h1 | h1
        · exact hbase c h1
        · exact Or.inr h1
      · rename_i page hpage entries hcont
        split at h
        · rename_i st2 m heq2
          cases h
          intro c hc
          have hpc := processEntries_calls gw pat bucket dry entries
            { st with trace := st.trace ++ [Call.listObjectsV2 token] } c
          rw [heq2] at hpc
          rcases hpc hc with h3 | h3
          · exact hbase c h3
          · exact Or.inr h3
        · rename_i st2 heq2
          have h2 : ∀ c ∈ st2.trace, c ∈ st.trace ∨ isDiscoveryCall c = true := by
            intro c hc2
            have hpc := processEntries_calls gw pat bucket dry entries
              { st with trace := st.trace ++ [Call.listObjectsV2 token] } c
            rw [heq2] at hpc
            rcases hpc hc2 with h3 | h3
            · exact hbase c h3
            · exact Or.inr h3
          split at h
          · cases h
            exact h2
          · intro c hmem
            rcases ih _ st2 h c hmem with h3 | h3
            · exact h2 c h3
            · exact Or.inr h3

/-! ### Lemmas about copy-call projections and trace extensions -/

theorem copyPairs_append (u : String) (tr1 tr2 : List Call) :
    copyPairs u (tr1 ++ tr2) = copyPairs u tr1 ++ copyPairs u tr2 := by
  induction tr1 with
  | nil => rfl
  | cons c rest ih =>
    cases c with
    | uploadPartCopy s k n u2 =>
      by_cases h : u2 = u <;> simp [copyPairs, h, ih]
    | listObjectsV2 t => simp [copyPairs, ih]
    | createMultipartUpload k => simp [copyPairs, ih]
    | listParts k u2 => simp [copyPairs, ih]
    | completeMultipartUpload k u2 p => simp [copyPairs, ih]
    | abortMultipartUpload k u2 => simp [copyPairs, ih]
    | deleteObject k => simp [copyPairs, ih]

theorem copyPairs_eq_nil_of_no_copy (u : String) (tr : List Call)
    (h : ∀ s k n, Call.uploadPartCopy s k n u ∉ tr) : copyPairs u tr = [] := by
  induction tr with
  | nil => rfl
  | cons c rest ih =>
    have hrest : ∀ s k n, Call.uploadPartCopy s k n u ∉ rest := by
      intro s k n hc
      exact h s k n (List.mem_cons_of_mem _ hc)
    cases c with
    | uploadPartCopy s k n u2 =>
      by_cases he : u2 = u
      · subst he
        exact absurd (List.mem_cons_self _ _) (h s k n)
      · simp [copyPairs, he, ih hrest]
    | listObjectsV2 t => simp [copyPairs, ih hrest]
    | createMultipartUpload k => simp [copyPairs, ih hrest]
    | listParts k u2 => simp [copyPairs, ih hrest]
    | completeMultipartUpload k u2 p => simp [copyPairs, ih hrest]
    | abortMultipartUpload k u2 => simp [copyPairs, ih hrest]
    | deleteObject k => simp [copyPairs, ih hrest]

theorem copyPairs_deletes (u : String) (keys : List String) :
    copyPairs u (keys.map Call.deleteObject) = [] := by
  induction keys <;> simp [copyPairs, *]

/-! ### Lemmas about the abort fold of the fatal-error path -/

theorem mem_foldl_abort_of_mem (ts : List (String × String)) (tr : List Call) {c : Call}
    (h : c ∈ tr) :
    c ∈ ts.foldl (fun tr2 p => tr2 ++ [Call.abortMultipartUpload p.1 p.2]) tr := by
  induction ts generalizing tr with
  | nil => exact h
  | cons q rest ih => exact ih _ (List.mem_append.mpr (Or.inl h))

theorem abort_mem_foldl (ts : List (String × String)) (tr : List Call) :
    ∀ p ∈ ts, Call.abortMultipartUpload p.1 p.2 ∈
      ts.foldl (fun tr2 q => tr2 ++ [Call.abortMultipartUpload q.1 q.2]) tr := by
  induction ts generalizing tr with
  | nil => intro p hp; cases hp
  | cons q rest ih =>
    intro p hp
    simp only [List.foldl_cons]
    rcases List.mem_cons.mp hp with rfl | h
    · exact mem_foldl_abort_of_mem rest _ (List.mem_append.mpr (Or.inr (List.mem_singleton.mpr rfl)))
    · exact ih _ p h

theorem mem_foldl_abort (ts : List (String × String)) (tr : List Call) :
    ∀ c ∈ ts.foldl (fun tr2 p => tr2 ++ [Call.abortMultipartUpload p.1 p.2]) tr,
      c ∈ tr ∨ ∃ p ∈ ts, c = Call.abortMultipartUpload p.1 p.2 := by
  induction ts generalizing tr with
  | nil => exact fun c hc => Or.inl hc
  | cons q rest ih =>
    intro c hc
    simp only [List.foldl_cons] at hc
    rcases ih _ c hc with h1 | ⟨p, hp, he⟩
    · rcases List.mem_append.mp h1 with h2 | h2
      · exact Or.inl h2
      · rcases List.mem_singleton.mp h2 with rfl
        exact Or.inr ⟨q, List.mem_cons_self _ _, rfl⟩
    · exact Or.inr ⟨p, List.mem_cons_of_mem _ hp, he⟩

/-! ### Lemmas about the completion and deletion passes -/

theorem completeLoop_sources_subset (gw : Gateway) (ts : List (String × String))
    (srcs : List (String × List String)) (tr : List Call) :
    ∀ p ∈ (completeLoop gw ts srcs tr).1, p ∈ srcs := by
  induction ts generalizing srcs tr with
  | nil => exact fun p hp => hp
  | cons q rest ih =>
    intro p hp
    simp only [completeLoop] at hp
    split at hp
    · exact ih _ _ p hp
    · split at hp
      · have h1 := ih _ _ p hp
        exact List.mem_of_mem_filter h1
      · exact ih _ _ p hp

theorem completeLoop_copyPairs (gw : Gateway) (u : String) (ts : List (String × String))
    (srcs : List (String × List String)) (tr : List Call) :
    copyPairs u (completeLoop gw ts srcs tr).2 = copyPairs u tr := by
  induction ts generalizing srcs tr with
  | nil => rfl
  | cons q rest ih =>
    simp only [completeLoop]
    split
    · rw [ih]
      simp [copyPairs_append, copyPairs]
    · split
      · rw [ih]
        simp [copyPairs_append, copyPairs]
      · rw [ih]
        simp [copyPairs_append, copyPairs]

theorem deleteLoop_copyPairs (gw : Gateway) (u : String)
    (srcs : List (String × List String)) (tr : List Call) :
    copyPairs u (deleteLoop gw srcs tr) = copyPairs u tr := by
  induction srcs generalizing tr with
  | nil => rfl
  | cons q rest ih =>
    simp only [deleteLoop]
    rw [ih]
    simp [copyPairs_append, copyPairs_deletes]

/-! ### Path equations for the embedded main -/

theorem mainRun_error_path (gw : Gateway) (pat : Pattern) (bucket : String)
    (cleanup : Bool) (fuel : Nat) (st : DiscoSt) (msg : String)
    (h : pageLoop gw pat bucket false fuel none initSt = some (st, some msg)) :
    mainRun gw pat bucket false cleanup fuel =
      some ⟨Except.error msg,
        st.targets.foldl (fun tr p => tr ++ [Call.abortMultipartUpload p.1 p.2]) st.trace,
        st.report, st.sources, st.targets⟩ := by
  simp [mainRun, h]

theorem mainRun_dry_path (gw : Gateway) (pat : Pattern) (bucket : String)
    (cleanup : Bool) (fuel : Nat) (st : DiscoSt) (eo : Option String)
    (h : pageLoop gw pat bucket true fuel none initSt = some (st, eo)) :
    mainRun gw pat bucket true cleanup fuel =
      some ⟨Except.ok (), st.trace, st.report, st.sources, st.targets⟩ := by
  simp [mainRun, h]

theorem mainRun_ok_path (gw : Gateway) (pat : Pattern) (bucket : String)
    (cleanup : Bool) (fuel : Nat) (st : DiscoSt)
    (h : pageLoop gw pat bucket false fuel none initSt = some (st, none)) :
    mainRun gw pat bucket false cleanup fuel =
      some ⟨Except.ok (),
        deleteLoop gw (completeLoop gw st.targets st.sources st.trace).1
          (completeLoop gw st.targets st.sources st.trace).2,
        st.report,
        (completeLoop gw st.targets st.sources st.trace).1,
        st.targets⟩ := by
  simp [mainRun, h]

/-! ### Nontermination lemma for contents-free listing pages -/

theorem pageLoop_none_of_contents_none (gw : Gateway)
    (hgw : ∀ t, ∃ tok, gw.listObjects t = Except.ok ⟨none, tok⟩) :
    ∀ (pat : Pattern) (bucket : String) (dry : Bool) (fuel : Nat)
      (token : Option String) (st : DiscoSt),
      pageLoop gw pat bucket dry fuel token st = none := by
  intro pat bucket dry fuel
  induction fuel with
  | zero => intro token st; rfl
  | succ n ih =>
    intro token st
    obtain ⟨tok, htok⟩ := hgw token
    simp only [pageLoop, htok]
    exact ih token _

/-! ### Fatal-discovery-error helper lemmas -/

theorem not_complete_delete_of_discovery {c : Call} (h : isDiscoveryCall c = true) :
    isCompleteCall c = false ∧ isDeleteCall c = false := by
  cases c <;> simp_all [isDiscoveryCall, isCompleteCall, isDeleteCall]

theorem run_error_conclusion (gw : Gateway) (pat : Pattern) (bucket : String)
    (cleanup : Bool) (fuel : Nat) (st : DiscoSt) (msg : String)
    (hpl : pageLoop gw pat bucket false fuel none initSt = some (st, some msg)) :
    ∃ out, mainRun gw pat bucket false cleanup fuel = some out ∧
      out.result = Except.error msg ∧
      (∀ p ∈ out.targets, Call.abortMultipartUpload p.1 p.2 ∈ out.trace) ∧
      (∀ c ∈ out.trace, isCompleteCall c = false ∧ isDeleteCall c = false) := by
  refine ⟨_, mainRun_error_path gw pat bucket cleanup fuel st msg hpl, rfl, ?_, ?_⟩
  · intro p hp
    exact abort_mem_foldl st.targets st.trace p hp
  · intro c hc
    rcases mem_foldl_abort st.targets st.trace c hc with h1 | ⟨p, hp, he⟩
    · rcases pageLoop_calls gw pat bucket false fuel none initSt st (some msg) hpl c h1 with h3 | h3
      · simp [initSt] at h3
      · exact not_complete_delete_of_discovery h3
    · subst he
      exact ⟨rfl, rfl⟩

theorem pageLoop_single_page (gw : Gateway) (pat : Pattern) (bucket : String)
    (dry : Bool) (entries : List Entry) (tok : Option String) (fuel : Nat)
    (st1 : DiscoSt) (msg : String)
    (hlist : gw.listObjects none = Except.ok ⟨some entries, tok⟩)
    (hes : processEntries gw pat bucket dry ⟨[], [], [Call.listObjectsV2 none], []⟩ entries
      = (st1, some msg)) :
    pageLoop gw pat bucket dry (fuel + 1) none initSt = some (st1, some msg) := by
  simp only [pageLoop, hlist]
  have h0 : ({ initSt with trace := initSt.trace ++ [Call.listObjectsV2 none] } : DiscoSt)
      = ⟨[], [], [Call.listObjectsV2 none], []⟩ := rfl
  rw [h0, hes]

/-! ### Claim theorems -/

/-- C2 (code_bug exhibit): `main` never reads the `--cleanup`/`-c` flag
that cli.rs declares with help text "Removes source files after
concatenation".  In a fully successful single-session run invoked WITHOUT
the cleanup flag, a DeleteObject call for the consumed source key is
still issued, contradicting both the spec and the flag's own
documentation. -/
theorem c2_bug_delete_issued_without_cleanup_flag :
    resultOf (mainRun gwHappy patAB ("bkt") false false 1) = some (Except.ok ()) ∧
    Call.deleteObject ("a.part") ∈ traceOf (mainRun gwHappy patAB ("bkt") false false 1) := by
  decide

/-- C3 (code_bug exhibit): two sessions, CompleteMultipartUpload fails
for target `A` (upload id `uA`) and succeeds for target `B`.  As claimed,
the failing session is aborted and the other is completed and never
aborted — but the failed session's source key `a1` is STILL deleted,
because `sources.remove(&key)` at src/main.rs line 166 passes the target
key to a map keyed by upload id, so the removal is a no-op. -/
theorem c3_bug_failed_session_sources_still_deleted :
    resultOf (mainRun gwTwoSessions patTwo ("bkt") false true 1) = some (Except.ok ()) ∧
    Call.abortMultipartUpload ("A") ("uA") ∈
      traceOf (mainRun gwTwoSessions patTwo ("bkt") false true 1) ∧
    Call.completeMultipartUpload ("B") ("uB") [] ∈
      traceOf (mainRun gwTwoSessions patTwo ("bkt") false true 1) ∧
    Call.abortMultipartUpload ("B") ("uB") ∉
      traceOf (mainRun gwTwoSessions patTwo ("bkt") false true 1) ∧
    Call.deleteObject ("a1") ∈
      traceOf (mainRun gwTwoSessions patTwo ("bkt") false true 1) ∧
    Call.deleteObject ("b1") ∈
      traceOf (mainRun gwTwoSessions patTwo ("bkt") false true 1) := by
  decide

/-- C4 (code_bug exhibit): when a listing page carries no contents, the
`continue` at src/main.rs line 238 re-requests the SAME token without
consulting `next_continuation_token`, so the discovery loop never
terminates — whether the page carries a next token or not.  The claim
says an empty page without a token is normal termination and an empty
page with a token advances to the next page; the code does neither. -/
theorem c4_bug_empty_page_never_terminates :
    ∀ (pat : Pattern) (bucket : String) (dry cleanup : Bool) (fuel : Nat),
      mainRun gwNoContents pat bucket dry cleanup fuel = none ∧
      mainRun gwNoContentsTok pat bucket dry cleanup fuel = none := by
  intro pat bucket dry cleanup fuel
  constructor
  · simp [mainRun,
      pageLoop_none_of_contents_none gwNoContents (fun t => ⟨none, rfl⟩) pat bucket dry fuel]
  · simp [mainRun,
      pageLoop_none_of_contents_none gwNoContentsTok (fun t => ⟨some ("t"), rfl⟩) pat bucket dry fuel]

/-- C10: when dry-run mode is enabled, `main` returns at src/main.rs line
86 before inspecting the discovery result, so even a discovery pass that
ended in an error (size constraint, listing failure, ...) yields `Ok(())`
and the error is silently discarded. -/
theorem c10_dry_run_discards_discovery_error (gw : Gateway) (pat : Pattern)
    (bucket : String) (cleanup : Bool) (fuel : Nat) (st : DiscoSt) (msg : String)
    (h : pageLoop gw pat bucket true fuel none initSt = some (st, some msg)) :
    mainRun gw pat bucket true cleanup fuel =
      some ⟨Except.ok (), st.trace, st.report, st.sources, st.targets⟩ :=
  mainRun_dry_path gw pat bucket cleanup fuel st (some msg) h

/-- C10 witness: a dry run over a listing with a 4 MB matching object:
discovery errors on the size constraint, yet the run returns `Ok(())`. -/
theorem c10_witness :
    mainRun gwSelfSmall patSelf ("bkt") true false 1 =
      some ⟨Except.ok (), [Call.listObjectsV2 none], [], [], []⟩ :=
  c10_dry_run_discards_discovery_error gwSelfSmall patSelf ("bkt") false 1
    ⟨[], [], [Call.listObjectsV2 none], []⟩ ("Unable to concat files below 5MB: x")
    (by decide)

/-- C1 counterexample: with the listing `[a.part (6 MB), b.part (1 B)]`,
both matching, the run does fail with the size-constraint error — but a
CreateMultipartUpload call for the earlier group `merged` has already
been issued, refuting "fails ... before any CreateMultipartUpload call is
issued, even when other matching objects were discovered earlier". -/
theorem c1_counterexample_create_before_size_error :
    resultOf (mainRun gwUndersized patAB ("bkt") false false 1)
      = some (Except.error ("Unable to concat files below 5MB: b.part")) ∧
    Call.createMultipartUpload ("merged") ∈
      traceOf (mainRun gwUndersized patAB ("bkt") false false 1) := by
  decide

/-- C5 counterexample: a listing that yields `a.part` twice and then
`b.part` (all 6 MB, one session).  The copy calls carry part numbers
`[1, 2, 2]` — the number 2 is passed twice — while the recorded source
set is `[a.part, b.part]` of size N = 2, refuting "exactly 1..N with no
gaps and no repeats ... including when the listing yields the same
matching key more than once". -/
theorem c5_counterexample_duplicate_key_repeats_part_number :
    copyPairs ("up-merged") (traceOf (mainRun gwDup patAB ("bkt") false false 1))
      = [("bkt/a.part", 1), ("bkt/a.part", 2), ("bkt/b.part", 2)] ∧
    lookupA (sourcesOf (mainRun gwDup patAB ("bkt") false false 1)) ("up-merged")
      = some ["a.part", "b.part"] := by
  decide

/-- C7 counterexample: the key `x` matches and resolves to itself, but is
4 MB: the size check at src/main.rs line 252 runs BEFORE the self-target
skip at line 263, so the run aborts with the size error instead of
treating the key as a no-op — refuting "skipped ... regardless of that
key's size". -/
theorem c7_counterexample_undersized_self_target_fails_run :
    resultOf (mainRun gwSelfSmall patSelf ("bkt") false false 1)
      = some (Except.error ("Unable to concat files below 5MB: x")) := by
  decide

/-- C9 counterexample: an XML error body whose `Message` element never
closes (reader hits end-of-file while reading the text).  `read_text`
fails, and the `expect` at src/types.rs line 81 panics instead of falling
back to the raw message — refuting "gracefully falling back to the raw
message on any decode failure". -/
theorem c9_counterexample_message_decode_failure_panics :
    deriveFromRusoto ("<?xml truncated")
      [XmlEvent.startTag ("Error"), XmlEvent.startTag ("Message"),
       XmlEvent.text ("oops"), XmlEvent.eof] = none := by
  decide

/-- C1 (amended): for every listing page on which a matching object
smaller than 5,000,000 bytes is reached (after an error-free prefix of
entries), the live run fails with the size-constraint error;
CreateMultipartUpload calls may already have been issued for groups
discovered earlier, and every such opened session receives an abort
request, while no CompleteMultipartUpload and no DeleteObject call is
ever issued (no partial completion, no deletion). -/
theorem c1_amended_size_error_aborts_without_completion
    (gw : Gateway) (pat : Pattern) (bucket : String) (cleanup : Bool)
    (es rest : List Entry) (bad : Entry) (tok : Option String) (fuel : Nat) (st1 : DiscoSt)
    (hlist : gw.listObjects none = Except.ok ⟨some (es ++ bad :: rest), tok⟩)
    (hes : processEntries gw pat bucket false ⟨[], [], [Call.listObjectsV2 none], []⟩ es
      = (st1, none))
    (hmatch : pat.isMatch bad.key = true)
    (hsize : bad.size < 5000000) :
    ∃ out, mainRun gw pat bucket false cleanup (fuel + 1) = some out ∧
      out.result = Except.error ("Unable to concat files below 5MB: " ++ bad.key) ∧
      (∀ p ∈ out.targets, Call.abortMultipartUpload p.1 p.2 ∈ out.trace) ∧
      (∀ c ∈ out.trace, isCompleteCall c = false ∧ isDeleteCall c = false) := by
  have hpe : processEntry gw pat bucket false st1 bad
      = (st1, some ("Unable to concat files below 5MB: " ++ bad.key)) := by
    simp [processEntry, hmatch, hsize]
  have hfull : processEntries gw pat bucket false ⟨[], [], [Call.listObjectsV2 none], []⟩
      (es ++ bad :: rest) = (st1, some ("Unable to concat files below 5MB: " ++ bad.key)) := by
    rw [processEntries_append, hes]
    simp only [processEntries]
    rw [hpe]
  exact run_error_conclusion gw pat bucket cleanup (fuel + 1) st1 _
    (pageLoop_single_page gw pat bucket false (es ++ bad :: rest) tok fuel st1 _ hlist hfull)

/-- C1 witness: the amended theorem applied to the concrete
`[a.part (6 MB), b.part (1 B)]` listing. -/
theorem c1_amended_witness :
    ∃ out, mainRun gwUndersized patAB ("bkt") false false 1 = some out ∧
      out.result = Except.error ("Unable to concat files below 5MB: " ++ ("b.part")) ∧
      (∀ p ∈ out.targets, Call.abortMultipartUpload p.1 p.2 ∈ out.trace) ∧
      (∀ c ∈ out.trace, isCompleteCall c = false ∧ isDeleteCall c = false) :=
  c1_amended_size_error_aborts_without_completion gwUndersized patAB ("bkt") false
    [⟨"a.part", 6000000⟩] [] ⟨"b.part", 1⟩ none 0
    ⟨[("up-merged", ["a.part"])], [("merged", "up-merged")],
      [Call.listObjectsV2 none, Call.createMultipartUpload ("merged"),
       Call.uploadPartCopy ("bkt/a.part") ("merged") 1 ("up-merged")],
      [("a.part", "merged")]⟩
    rfl (by decide) (by decide) (by decide)

/-- C6: if a source's part-copy fails during discovery (after an
error-free prefix of entries), every session that had reached Open — that
is, every entry of the targets map — has an abort request issued for it,
no CompleteMultipartUpload call is ever issued, no DeleteObject call
occurs, and the process returns the original part-copy error. -/
theorem c6_copy_failure_aborts_all_open_sessions
    (gw : Gateway) (pat : Pattern) (bucket : String) (cleanup : Bool)
    (es rest : List Entry) (bad : Entry) (tok : Option String) (fuel : Nat)
    (st1 : DiscoSt) (u0 ec : String)
    (hlist : gw.listObjects none = Except.ok ⟨some (es ++ bad :: rest), tok⟩)
    (hes : processEntries gw pat bucket false ⟨[], [], [Call.listObjectsV2 none], []⟩ es
      = (st1, none))
    (hmatch : pat.isMatch bad.key = true)
    (hsize : ¬ bad.size < 5000000)
    (hself : pat.replaceAll bad.key ≠ bad.key)
    (hcreate : gw.createMultipartUpload (pat.replaceAll bad.key) = Except.ok u0)
    (hcopy : ∀ n u, gw.uploadPartCopy (bucket ++ "/" ++ bad.key) (pat.replaceAll bad.key) n u
      = Except.error ec) :
    ∃ out, mainRun gw pat bucket false cleanup (fuel + 1) = some out ∧
      out.result = Except.error ec ∧
      (∀ p ∈ out.targets, Call.abortMultipartUpload p.1 p.2 ∈ out.trace) ∧
      (∀ c ∈ out.trace, isCompleteCall c = false ∧ isDeleteCall c = false) := by
  have hpe : ∃ st2, processEntry gw pat bucket false st1 bad = (st2, some ec) := by
    simp only [processEntry, hmatch, hsize, hself]
    simp only [Bool.not_eq_true, if_false, ite_false, ite_true, if_true]
    by_cases hl : (lookupA
        ({ st1 with report := st1.report ++ [(bad.key, pat.replaceAll bad.key)] } : DiscoSt).targets
        (pat.replaceAll bad.key)).isSome
    · have hens : ensureUpload gw
          { st1 with report := st1.report ++ [(bad.key, pat.replaceAll bad.key)] }
          (pat.replaceAll bad.key)
          = Except.ok { st1 with report := st1.report ++ [(bad.key, pat.replaceAll bad.key)] } := by
        simp [ensureUpload, hl]
      rw [hens]
      simp only [copyPart, hcopy]
      exact ⟨_, rfl⟩
    · have hens : ensureUpload gw
          { st1 with report := st1.report ++ [(bad.key, pat.replaceAll bad.key)] }
          (pat.replaceAll bad.key)
          = Except.ok
            { sources := insertA st1.sources u0 [],
              targets := insertA st1.targets (pat.replaceAll bad.key) u0,
              trace := st1.trace ++ [Call.createMultipartUpload (pat.replaceAll bad.key)],
              report := st1.report ++ [(bad.key, pat.replaceAll bad.key)] } := by
        simp [ensureUpload, hl, hcreate]
      rw [hens]
      simp only [copyPart, hcopy]
      exact ⟨_, rfl⟩
  obtain ⟨st2, hpe⟩ := hpe
  have hfull : processEntries gw pat bucket false ⟨[], [], [Call.listObjectsV2 none], []⟩
      (es ++ bad :: rest) = (st2, some ec) := by
    rw [processEntries_append, hes]
    simp only [processEntries]
    rw [hpe]
  exact run_error_conclusion gw pat bucket cleanup (fuel + 1) st2 ec
    (pageLoop_single_page gw pat bucket false (es ++ bad :: rest) tok fuel st2 ec hlist hfull)

/-- C6 witness: the theorem applied to a single 6 MB matching object
whose part-copy fails. -/
theorem c6_witness :
    ∃ out, mainRun gwCopyFail patAB ("bkt") false false 1 = some out ∧
      out.result = Except.error ("copy failed") ∧
      (∀ p ∈ out.targets, Call.abortMultipartUpload p.1 p.2 ∈ out.trace) ∧
      (∀ c ∈ out.trace, isCompleteCall c = false ∧ isDeleteCall c = false) :=
  c6_copy_failure_aborts_all_open_sessions gwCopyFail patAB ("bkt") false
    [] [] ⟨"a.part", 6000000⟩ none 0 ⟨[], [], [Call.listObjectsV2 none], []⟩
    ("u1") ("copy failed")
    rfl (by decide) (by decide) (by decide) (by decide) rfl
    (fun n u => rfl)

/-- C7 (amended): a matched key that resolves to itself and satisfies the
size constraint is a pure no-op: the entry-loop body returns the state
unchanged with no error (it joins no session, issues no call, prints no
report line), and removing such an entry from any entry list leaves the
whole entry loop's outcome unchanged.  An UNDERSIZED self-target key,
however, still aborts the run (see the counterexample), because the size
check precedes the self-target skip. -/
theorem c7_amended_self_target_skipped_when_size_ok
    (gw : Gateway) (pat : Pattern) (bucket : String) (dry : Bool) (st : DiscoSt)
    (e : Entry) (l1 l2 : List Entry)
    (hmatch : pat.isMatch e.key = true)
    (hsize : ¬ e.size < 5000000)
    (hself : pat.replaceAll e.key = e.key) :
    processEntry gw pat bucket dry st e = (st, none) ∧
    processEntries gw pat bucket dry st (l1 ++ e :: l2)
      = processEntries gw pat bucket dry st (l1 ++ l2) := by
  have h1 : ∀ st0, processEntry gw pat bucket dry st0 e = (st0, none) := by
    intro st0
    simp [processEntry, hmatch, hsize, hself]
  refine ⟨h1 st, ?_⟩
  rw [processEntries_append, processEntries_append]
  rcases hpl : processEntries gw pat bucket dry st l1 with ⟨st1, eo⟩
  cases eo with
  | some m => rfl
  | none => simp only [processEntries, h1 st1]

/-- C7 witness: the amended theorem applied to a 6 MB self-target key. -/
theorem c7_amended_witness :
    processEntry gwHappy patSelf ("bkt") false initSt ⟨"x", 6000000⟩ = (initSt, none) ∧
    processEntries gwHappy patSelf ("bkt") false initSt ([] ++ ⟨"x", 6000000⟩ :: [])
      = processEntries gwHappy patSelf ("bkt") false initSt ([] ++ []) :=
  c7_amended_self_target_skipped_when_size_ok gwHappy patSelf ("bkt") false initSt
    ⟨"x", 6000000⟩ [] [] (by decide) (by decide) (by decide)

/-- C9 (amended): for the rusoto-to-ConcatError conversion, (a) when the
error text is an XML envelope and the reader's events walk through a
prefix to a `Message` element holding a text node, the surfaced error is
exactly that text; (b) when the scan reaches end-of-file or a reader
error before any `Message` start tag, the raw error text is surfaced
unchanged; (c) when the text is not an XML envelope, the raw text is
surfaced.  A decode failure while reading the `Message` element's own
text, however, panics instead of falling back (see the counterexample). -/
theorem c9_amended_message_extraction_and_fallback :
    (∀ (msg t : String) (pre rest : List XmlEvent),
      xmlLead.isPrefixOf msg.data = true →
      passThrough pre = true →
      deriveFromRusoto msg (pre ++ XmlEvent.startTag ("Message") :: XmlEvent.text t ::
        XmlEvent.endTag ("Message") :: rest) = some t) ∧
    (∀ (msg : String) (evs : List XmlEvent),
      xmlLead.isPrefixOf msg.data = true →
      noMessageTag evs = true →
      deriveFromRusoto msg evs = some msg) ∧
    (∀ (msg : String) (evs : List XmlEvent),
      xmlLead.isPrefixOf msg.data = false →
      deriveFromRusoto msg evs = some msg) := by
  refine ⟨?_, ?_, ?_⟩
  · intro msg t pre rest hx hpre
    rw [deriveFromRusoto, if_pos hx]
    induction pre with
    | nil => simp [scanForMessage, readText, readToEnd]
    | cons ev pre ih =>
      cases ev with
      | startTag n =>
        have hn : ¬ n = "Message" := by
          by_contra hc
          simp [passThrough, hc] at hpre
        simp only [passThrough, hn, if_false] at hpre
        simpa [scanForMessage, hn] using ih hpre
      | endTag n =>
        simp only [passThrough] at hpre
        simpa [scanForMessage] using ih hpre
      | text s =>
        simp only [passThrough] at hpre
        simpa [scanForMessage] using ih hpre
      | eof => simp [passThrough] at hpre
      | decodeError => simp [passThrough] at hpre
  · intro msg evs hx hno
    rw [deriveFromRusoto, if_pos hx]
    induction evs with
    | nil => rfl
    | cons ev evs ih =>
      cases ev with
      | startTag n =>
        have hn : ¬ n = "Message" := by
          by_contra hc
          simp [noMessageTag, hc] at hno
        simp only [noMessageTag, hn, if_false] at hno
        simpa [scanForMessage, hn] using ih hno
      | endTag n =>
        simp only [noMessageTag] at hno
        simpa [scanForMessage] using ih hno
      | text s =>
        simp only [noMessageTag] at hno
        simpa [scanForMessage] using ih hno
      | eof => rfl
      | decodeError => rfl
  · intro msg evs hx
    rw [deriveFromRusoto, if_neg (by simp [hx])]

/-- C9 witness: the amended theorem applied to a well-formed error
envelope, an envelope with no Message element, and a non-XML message. -/
theorem c9_amended_witness :
    deriveFromRusoto ("<?xml e")
      ([XmlEvent.startTag ("Error"), XmlEvent.startTag ("Code"), XmlEvent.text ("c"),
        XmlEvent.endTag ("Code")] ++ XmlEvent.startTag ("Message") :: XmlEvent.text ("boom") ::
        XmlEvent.endTag ("Message") :: [XmlEvent.endTag ("Error"), XmlEvent.eof])
      = some ("boom") ∧
    deriveFromRusoto ("<?xml e")
      [XmlEvent.startTag ("Error"), XmlEvent.endTag ("Error"), XmlEvent.eof]
      = some ("<?xml e") ∧
    deriveFromRusoto ("plain failure") [XmlEvent.eof] = some ("plain failure") :=
  ⟨c9_amended_message_extraction_and_fallback.1 ("<?xml e") ("boom")
      [XmlEvent.startTag ("Error"), XmlEvent.startTag ("Code"), XmlEvent.text ("c"),
       XmlEvent.endTag ("Code")]
      [XmlEvent.endTag ("Error"), XmlEvent.eof] (by decide) (by decide),
   c9_amended_message_extraction_and_fallback.2.1 ("<?xml e")
      [XmlEvent.startTag ("Error"), XmlEvent.endTag ("Error"), XmlEvent.eof]
      (by decide) (by decide),
   c9_amended_message_extraction_and_fallback.2.2 ("plain failure") [XmlEvent.eof]
      (by decide)⟩

/-! ### Dry-run versus live-run lemmas -/

theorem processEntry_dry (gw : Gateway) (pat : Pattern) (bucket : String)
    (st : DiscoSt) (e : Entry) :
    processEntry gw pat bucket true st e
      = ({ st with report := st.report ++ reportDelta pat e }, entryErr pat e) := by
  by_cases h1 : pat.isMatch e.key
  · by_cases h2 : e.size < 5000000
    · simp [processEntry, reportDelta, entryErr, h1, h2]
    · by_cases h3 : pat.replaceAll e.key = e.key
      · simp [processEntry, reportDelta, entryErr, h1, h2, h3]
      · simp [processEntry, reportDelta, entryErr, h1, h2, h3]
  · simp [processEntry, reportDelta, entryErr, h1]

theorem ensureUpload_report {gw : Gateway} (st : DiscoSt) (t : String)
    (h1 : ∀ k, ∃ u, gw.createMultipartUpload k = Except.ok u) :
    ∃ st1, ensureUpload gw st t = Except.ok st1 ∧ st1.report = st.report := by
  unfold ensureUpload
  by_cases hl : (lookupA st.targets t).isSome
  · exact ⟨st, by simp [hl], rfl⟩
  · obtain ⟨u, hu⟩ := h1 t
    refine ⟨{ st with
        trace := st.trace ++ [Call.createMultipartUpload t],
        targets := insertA st.targets t u,
        sources := insertA st.sources u [] }, ?_, rfl⟩
    simp [hl, hu]

theorem copyPart_ok {gw : Gateway} (bucket : String) (st : DiscoSt) (k t : String)
    (h2 : ∀ s t2 n u, gw.uploadPartCopy s t2 n u = Except.ok ()) :
    (copyPart gw bucket st k t).2 = none ∧
    (copyPart gw bucket st k t).1.report = st.report := by
  simp [copyPart, h2]

theorem processEntry_live {gw : Gateway} (h : NoMutFail gw) (pat : Pattern)
    (bucket : String) (st : DiscoSt) (e : Entry) :
    (processEntry gw pat bucket false st e).1.report = st.report ++ reportDelta pat e ∧
    (processEntry gw pat bucket false st e).2 = entryErr pat e := by
  by_cases h1 : pat.isMatch e.key
  · by_cases h2 : e.size < 5000000
    · simp [processEntry, reportDelta, entryErr, h1, h2]
    · by_cases h3 : pat.replaceAll e.key = e.key
      · simp [processEntry, reportDelta, entryErr, h1, h2, h3]
      · simp only [processEntry, reportDelta, entryErr, h1, h2, h3]
        obtain ⟨st1, hens, hrep⟩ := ensureUpload_report
          { st with report := st.report ++ [(e.key, pat.replaceAll e.key)] }
          (pat.replaceAll e.key) h.1
        rw [hens]
        have hcp := copyPart_ok bucket st1 e.key (pat.replaceAll e.key) h.2
        simp [hcp.1, hcp.2, hrep, h1, h2, h3]
  · simp [processEntry, reportDelta, entryErr, h1]

theorem processEntries_dry_live_rel {gw : Gateway} (h : NoMutFail gw) (pat : Pattern)
    (bucket : String) :
    ∀ (es : List Entry) (std stl : DiscoSt), std.report = stl.report →
      (processEntries gw pat bucket true std es).1.report
        = (processEntries gw pat bucket false stl es).1.report ∧
      (processEntries gw pat bucket true std es).2
        = (processEntries gw pat bucket false stl es).2 := by
  intro es
  induction es with
  | nil => exact fun std stl h0 => ⟨h0, rfl⟩
  | cons e rest ih =>
    intro std stl h0
    simp only [processEntries]
    rw [processEntry_dry gw pat bucket std e]
    rcases hl : processEntry gw pat bucket false stl e with ⟨stl1, eo⟩
    have hlive := processEntry_live h pat bucket stl e
    rw [hl] at hlive
    obtain ⟨hrep, herr⟩ := hlive
    cases he : entryErr pat e with
    | some m =>
      rw [he] at herr
      subst herr
      refine ⟨?_, rfl⟩
      show std.report ++ reportDelta pat e = stl1.report
      have hrep2 : stl1.report = stl.report ++ reportDelta pat e := hrep
      rw [hrep2, h0]
    | none =>
      rw [he] at herr
      subst herr
      have hrep2 : stl1.report = stl.report ++ reportDelta pat e := hrep
      refine ih _ _ ?_
      show std.report ++ reportDelta pat e = stl1.report
      rw [hrep2, h0]

theorem pageLoop_dry_live_rel {gw : Gateway} (h : NoMutFail gw) (pat : Pattern)
    (bucket : String) :
    ∀ (fuel : Nat) (token : Option String) (std stl : DiscoSt), std.report = stl.report →
      ((pageLoop gw pat bucket true fuel token std).map (fun p => (p.1.report, p.2)))
        = ((pageLoop gw pat bucket false fuel token stl).map (fun p => (p.1.report, p.2))) := by
  intro fuel
  induction fuel with
  | zero => intro token std stl h0; rfl
  | succ n ih =>
    intro token std stl h0
    simp only [pageLoop]
    cases gw.listObjects token with
    | error msg => simp [h0]
    | ok page =>
      rcases page with ⟨pc, pt⟩
      cases pc with
      | none => exact ih token _ _ h0
      | some entries =>
        dsimp only
        have hrel := processEntries_dry_live_rel h pat bucket entries
          { std with trace := std.trace ++ [Call.listObjectsV2 token] }
          { stl with trace := stl.trace ++ [Call.listObjectsV2 token] } h0
        rcases hd : processEntries gw pat bucket true
            { std with trace := std.trace ++ [Call.listObjectsV2 token] } entries with ⟨std1, eod⟩
        rcases hlv : processEntries gw pat bucket false
            { stl with trace := stl.trace ++ [Call.listObjectsV2 token] } entries with ⟨stl1, eol⟩
        rw [hd, hlv] at hrel
        have hrep1 : std1.report = stl1.report := hrel.1
        have herr1 : eod = eol := hrel.2
        subst herr1
        cases eod with
        | some m => simp [hrep1]
        | none =>
          cases pt with
          | none => simp [hrep1]
          | some tk => exact ih (some tk) _ _ hrep1

theorem processEntries_dry_trace (gw : Gateway) (pat : Pattern) (bucket : String) :
    ∀ (es : List Entry) (st : DiscoSt),
      (processEntries gw pat bucket true st es).1.trace = st.trace := by
  intro es
  induction es with
  | nil => intro st; rfl
  | cons e rest ih =>
    intro st
    simp only [processEntries, processEntry_dry]
    cases he : entryErr pat e with
    | some m => rfl
    | none => exact ih _

theorem pageLoop_dry_no_mut (gw : Gateway) (pat : Pattern) (bucket : String) :
    ∀ (fuel : Nat) (token : Option String) (st st1 : DiscoSt) (eo : Option String),
      (∀ c ∈ st.trace, isMutationCall c = false) →
      pageLoop gw pat bucket true fuel token st = some (st1, eo) →
      ∀ c ∈ st1.trace, isMutationCall c = false := by
  intro fuel
  induction fuel with
  | zero => intro token st st1 eo hst h; cases h
  | succ n ih =>
    intro token st st1 eo hst h
    have hbase : ∀ c ∈ st.trace ++ [Call.listObjectsV2 token], isMutationCall c = false := by
      intro c hc
      rcases List.mem_append.mp hc with h1 | h1
      · exact hst c h1
      · rcases List.mem_singleton.mp h1 with rfl
        rfl
    simp only [pageLoop] at h
    split at h
    · cases h
      exact hbase
    · split at h
      · exact ih token _ st1 eo hbase h
      · rename_i page hpage entries hcont
        split at h
        · rename_i st2 m heq2
          cases h
          intro c hc
          have htr := processEntries_dry_trace gw pat bucket entries
            { st with trace := st.trace ++ [Call.listObjectsV2 token] }
          rw [heq2] at htr
          rw [htr] at hc
          exact hbase c hc
        · rename_i st2 heq2
          have htr := processEntries_dry_trace gw pat bucket entries
            { st with trace := st.trace ++ [Call.listObjectsV2 token] }
          rw [heq2] at htr
          have h2 : ∀ c ∈ st2.trace, isMutationCall c = false := by
            intro c hc
            rw [htr] at hc
            exact hbase c hc
          split at h
          · cases h
            exact h2
          · exact ih _ st2 st1 eo h2 h

/-- C8: a dry run issues no mutating Storage Gateway call at all (its
trace consists of listings only), and — against a gateway that accepts
every create and part-copy — it produces exactly the same grouping
report, in the same order, as the live run over the same listing. -/
theorem c8_dry_run_no_mutations_and_same_report
    (gw : Gateway) (pat : Pattern) (bucket : String) (cleanup : Bool) (fuel : Nat)
    (h : NoMutFail gw) :
    ((mainRun gw pat bucket true cleanup fuel).map RunOut.report)
      = ((mainRun gw pat bucket false cleanup fuel).map RunOut.report) ∧
    (∀ out, mainRun gw pat bucket true cleanup fuel = some out →
      ∀ c ∈ out.trace, isMutationCall c = false) := by
  have hrel := pageLoop_dry_live_rel h pat bucket fuel none initSt initSt rfl
  constructor
  · rcases hd : pageLoop gw pat bucket true fuel none initSt with _ | ⟨std1, eod⟩ <;>
      rcases hl : pageLoop gw pat bucket false fuel none initSt with _ | ⟨stl1, eol⟩ <;>
      rw [hd, hl] at hrel <;> simp at hrel
    · simp [mainRun, hd, hl]
    · obtain ⟨hrep1, herr1⟩ := hrel
      subst herr1
      cases eod with
      | some m =>
        rw [mainRun_dry_path gw pat bucket cleanup fuel std1 (some m) hd,
          mainRun_error_path gw pat bucket cleanup fuel stl1 m hl]
        simp [hrep1]
      | none =>
        rw [mainRun_dry_path gw pat bucket cleanup fuel std1 none hd,
          mainRun_ok_path gw pat bucket cleanup fuel stl1 hl]
        simp [hrep1]
  · intro out hout c hc
    rcases hd : pageLoop gw pat bucket true fuel none initSt with _ | ⟨std1, eod⟩
    · simp [mainRun, hd] at hout
    · rw [mainRun_dry_path gw pat bucket cleanup fuel std1 eod hd] at hout
      cases hout
      exact pageLoop_dry_no_mut gw pat bucket fuel none initSt std1 eod
        (by intro c2 hc2; simp [initSt] at hc2) hd c hc

/-- C8 witness: the theorem applied to the one-object happy-path gateway,
whose creates and copies always succeed. -/
theorem c8_witness :
    ((mainRun gwHappy patAB ("bkt") true false 1).map RunOut.report)
      = ((mainRun gwHappy patAB ("bkt") false false 1).map RunOut.report) ∧
    (∀ out, mainRun gwHappy patAB ("bkt") true false 1 = some out →
      ∀ c ∈ out.trace, isMutationCall c = false) :=
  c8_dry_run_no_mutations_and_same_report gwHappy patAB ("bkt") false 1
    ⟨fun k => ⟨k, rfl⟩, fun s t n u => rfl⟩

/-! ### Lemmas about the reference copy-call shape -/

theorem taggedCalls_snoc (b : String) (ks : List String) (k : String) :
    ∀ seen, taggedCalls b (ks ++ [k]) seen
      = taggedCalls b ks seen ++
        [(b ++ "/" ++ k, ((List.foldl insertS seen ks).length : Int) + 1)] := by
  induction ks with
  | nil => intro seen; simp [taggedCalls]
  | cons k2 rest ih => intro seen; simp [taggedCalls, ih]

theorem tagged_nodup_spec (b : String) :
    ∀ (ks seen : List String), ks.Nodup → (∀ k ∈ ks, k ∉ seen) →
      ((taggedCalls b ks seen).map Prod.snd
        = (List.range ks.length).map (fun i => ((seen.length + i : Nat) : Int) + 1)) ∧
      List.foldl insertS seen ks = seen ++ ks ∧
      ((taggedCalls b ks seen).map Prod.fst = ks.map (fun k2 => b ++ "/" ++ k2)) := by
  intro ks
  induction ks with
  | nil => intro seen _ _; simp [taggedCalls]
  | cons k rest ih =>
    intro seen hnd hdis
    have hk : k ∉ seen := hdis k (List.mem_cons_self _ _)
    have hins : insertS seen k = seen ++ [k] := insertS_of_not_mem hk
    simp only [List.nodup_cons] at hnd
    have hdis2 : ∀ k2 ∈ rest, k2 ∉ seen ++ [k] := by
      intro k2 hk2 hmem
      rcases List.mem_append.mp hmem with h1 | h1
      · exact hdis k2 (List.mem_cons_of_mem _ hk2) h1
      · rcases List.mem_singleton.mp h1 with rfl
        exact hnd.1 hk2
    obtain ⟨ih1, ih2, ih3⟩ := ih (seen ++ [k]) hnd.2 hdis2
    refine ⟨?_, ?_, ?_⟩
    · simp only [taggedCalls, List.map_cons, hins]
      rw [ih1]
      simp only [List.length_cons]
      rw [List.range_succ_eq_map]
      simp only [List.map_cons, List.map_map, List.length_append, List.length_singleton,
        List.length_cons, List.length_nil, Nat.add_zero]
      refine congrArg₂ List.cons rfl ?_
      refine List.map_congr_left ?_
      intro i _
      simp only [Function.comp]
      congr 1
      omega
    · simp only [List.foldl_cons, hins, ih2, List.append_assoc, List.singleton_append]
    · simp only [taggedCalls, List.map_cons, hins, ih3]

/-! ### Uniqueness lemmas for the registry maps -/

theorem pair_eq_of_fst_nodup {α : Type} :
    ∀ {l : List (String × α)} {p q : String × α},
      (l.map Prod.fst).Nodup → p ∈ l → q ∈ l → p.1 = q.1 → p = q := by
  intro l
  induction l with
  | nil => intro p q _ hp; cases hp
  | cons r rest ih =>
    intro p q hnd hp hq he
    simp only [List.map_cons, List.nodup_cons] at hnd
    rcases List.mem_cons.mp hp with h1 | h1 <;> rcases List.mem_cons.mp hq with h2 | h2
    · rw [h1, h2]
    · subst h1
      exact absurd (he ▸ List.mem_map_of_mem Prod.fst h2) hnd.1
    · subst h2
      exact absurd (he ▸ List.mem_map_of_mem Prod.fst h1) hnd.1
    · exact ih hnd.2 h1 h2 he

theorem values_nodup {gw : Gateway} {ts : List (String × String)}
    (hinj : GwInj gw)
    (hcr : ∀ p ∈ ts, gw.createMultipartUpload p.1 = Except.ok p.2)
    (hnd : (ts.map Prod.fst).Nodup) : (ts.map Prod.snd).Nodup := by
  refine List.Nodup.map_on ?_ (List.Nodup.of_map Prod.fst hnd)
  intro p hp q hq he
  have h1 := hcr p hp
  have h2 := hcr q hq
  rw [he] at h1
  exact pair_eq_of_fst_nodup hnd hp hq (hinj p.1 q.1 q.2 h1 h2)

theorem fresh_upload_id {gw : Gateway} {ts : List (String × String)} {t u : String}
    (hinj : GwInj gw)
    (hcr : ∀ p ∈ ts, gw.createMultipartUpload p.1 = Except.ok p.2)
    (ht : t ∉ ts.map Prod.fst)
    (hu : gw.createMultipartUpload t = Except.ok u) : u ∉ ts.map Prod.snd := by
  intro hmem
  rcases List.mem_map.mp hmem with ⟨q, hq, hq2⟩
  have h1 := hcr q hq
  rw [hq2] at h1
  have := hinj q.1 t u h1 hu
  exact ht (this ▸ List.mem_map_of_mem Prod.fst hq)

theorem copyPairs_single_noncopy {c : Call} (u : String) (h : isCopyCall c = false) :
    copyPairs u [c] = [] := by
  cases c <;> simp_all [isCopyCall, copyPairs]

theorem addSource_fst (m : List (String × List String)) (u k : String) :
    (addSource m u k).map Prod.fst = m.map Prod.fst := by
  induction m with
  | nil => rfl
  | cons p rest ih =>
    by_cases h : p.1 = u <;> simp [addSource, h] <;> simpa [addSource] using ih

theorem mem_addSource {m : List (String × List String)} {u k : String}
    {p : String × List String} (hp : p ∈ addSource m u k) :
    (p ∈ m ∧ p.1 ≠ u) ∨ ∃ keys0, (u, keys0) ∈ m ∧ p = (u, insertS keys0 k) := by
  induction m with
  | nil => cases hp
  | cons q rest ih =>
    simp only [addSource, List.map_cons, List.mem_cons] at hp
    by_cases h : q.1 = u
    · rw [if_pos h] at hp
      rcases hp with h1 | h1
      · right
        refine ⟨q.2, ?_, ?_⟩
        · rw [← h]
          exact List.mem_cons_self _ _
        · rw [h1, h]
      · rcases ih h1 with ⟨h2, h3⟩ | ⟨keys0, h2, h3⟩
        · exact Or.inl ⟨List.mem_cons_of_mem _ h2, h3⟩
        · exact Or.inr ⟨keys0, List.mem_cons_of_mem _ h2, h3⟩
    · rw [if_neg h] at hp
      rcases hp with h1 | h1
      · left
        constructor
        · rw [h1]; exact List.mem_cons_self _ _
        · rw [h1]; exact h
      · rcases ih h1 with ⟨h2, h3⟩ | ⟨keys0, h2, h3⟩
        · exact Or.inl ⟨List.mem_cons_of_mem _ h2, h3⟩
        · exact Or.inr ⟨keys0, List.mem_cons_of_mem _ h2, h3⟩

theorem copyPairs_single_copy (u2 s k : String) (n : Int) (u : String) :
    copyPairs u2 [Call.uploadPartCopy s k n u] = if u = u2 then [(s, n)] else [] := by
  by_cases h : u = u2 <;> simp [copyPairs, h]

/-! ### Preservation of the session invariant -/

theorem inv_trace_snoc {gw : Gateway} {bucket : String} {st : DiscoSt} {c : Call}
    (hinv : Inv gw bucket st) (hc : isCopyCall c = false) :
    Inv gw bucket { st with trace := st.trace ++ [c] } := by
  obtain ⟨h1, h2, h3, h4, h5⟩ := hinv
  refine ⟨h1, h2, h3, ?_, ?_⟩
  · intro s k n u hmem
    rcases List.mem_append.mp hmem with hm | hm
    · exact h4 s k n u hm
    · have he := List.mem_singleton.mp hm
      rw [← he] at hc
      simp [isCopyCall] at hc
  · intro p hp
    obtain ⟨ks, hk1, hk2⟩ := h5 p hp
    refine ⟨ks, ?_, hk2⟩
    show copyPairs p.1 (st.trace ++ [c]) = taggedCalls bucket ks []
    rw [copyPairs_append, copyPairs_single_noncopy p.1 hc, hk1, List.append_nil]

theorem inv_ensureUpload {gw : Gateway} {bucket : String} {st : DiscoSt} {t : String}
    {st1 : DiscoSt} (hinj : GwInj gw) (hinv : Inv gw bucket st)
    (h : ensureUpload gw st t = Except.ok st1) :
    Inv gw bucket st1 ∧ ∃ u, lookupA st1.targets t = some u := by
  unfold ensureUpload at h
  by_cases hl : (lookupA st.targets t).isSome
  · simp only [hl, if_true] at h
    cases h
    exact ⟨hinv, Option.isSome_iff_exists.mp hl⟩
  · simp only [hl, if_false] at h
    cases hc : gw.createMultipartUpload t with
    | error msg => rw [hc] at h; cases h
    | ok u =>
      rw [hc] at h
      cases h
      have hlnone : lookupA st.targets t = none := Option.not_isSome_iff_eq_none.mp hl
      have ht : t ∉ st.targets.map Prod.fst := (lookupA_eq_none_iff _ _).mp hlnone
      obtain ⟨h1, h2, h3, h4, h5⟩ := hinv
      have hfresh : u ∉ st.targets.map Prod.snd := fresh_upload_id hinj h1 ht hc
      have husrc : lookupA st.sources u = none := by
        rw [lookupA_eq_none_iff, h3]
        exact hfresh
      have htg : insertA st.targets t u = st.targets ++ [(t, u)] :=
        insertA_of_not_mem u hlnone
      have hsr : insertA st.sources u [] = st.sources ++ [(u, [])] :=
        insertA_of_not_mem [] husrc
      constructor
      · refine ⟨?_, ?_, ?_, ?_, ?_⟩
        · show ∀ p ∈ insertA st.targets t u, gw.createMultipartUpload p.1 = Except.ok p.2
          rw [htg]
          intro p hp
          rcases List.mem_append.mp hp with hm | hm
          · exact h1 p hm
          · rcases List.mem_singleton.mp hm with rfl
            exact hc
        · show ((insertA st.targets t u).map Prod.fst).Nodup
          rw [htg]
          simp [List.nodup_append, h2, ht]
        · show (insertA st.sources u []).map Prod.fst = (insertA st.targets t u).map Prod.snd
          rw [htg, hsr]
          simp [h3]
        · show ∀ s k n u2, Call.uploadPartCopy s k n u2 ∈
              st.trace ++ [Call.createMultipartUpload t] →
              u2 ∈ (insertA st.targets t u).map Prod.snd
          intro s k n u2 hmem
          rw [htg]
          rcases List.mem_append.mp hmem with hm | hm
          · simp only [List.map_append]
            exact List.mem_append.mpr (Or.inl (h4 s k n u2 hm))
          · cases List.mem_singleton.mp hm
        · show ∀ p ∈ insertA st.sources u [],
            ∃ ks, copyPairs p.1 (st.trace ++ [Call.createMultipartUpload t])
              = taggedCalls bucket ks [] ∧ p.2 = List.foldl insertS [] ks
          rw [hsr]
          intro p hp
          rcases List.mem_append.mp hp with hm | hm
          · obtain ⟨ks, hk1, hk2⟩ := h5 p hm
            refine ⟨ks, ?_, hk2⟩
            rw [copyPairs_append,
              @copyPairs_single_noncopy (Call.createMultipartUpload t) p.1 rfl,
              hk1, List.append_nil]
          · rcases List.mem_singleton.mp hm with rfl
            refine ⟨[], ?_, rfl⟩
            rw [copyPairs_append,
              @copyPairs_single_noncopy (Call.createMultipartUpload t) u rfl,
              List.append_nil]
            refine copyPairs_eq_nil_of_no_copy _ _ ?_
            intro s k n hmem
            exact hfresh (h4 s k n u hmem)
      · refine ⟨u, ?_⟩
        show lookupA (insertA st.targets t u) t = some u
        exact lookupA_insertA st.targets t u

theorem inv_copyPart {gw : Gateway} {bucket : String} {st1 : DiscoSt} {key t u : String}
    {st2 : DiscoSt} (hinj : GwInj gw) (hinv : Inv gw bucket st1)
    (hlk : lookupA st1.targets t = some u)
    (h : copyPart gw bucket st1 key t = (st2, none)) : Inv gw bucket st2 := by
  obtain ⟨h1, h2, h3, h4, h5⟩ := hinv
  have hvnd : (st1.targets.map Prod.snd).Nodup := values_nodup hinj h1 h2
  have hsnd : (st1.sources.map Prod.fst).Nodup := by rw [h3]; exact hvnd
  have humem : u ∈ st1.targets.map Prod.snd :=
    List.mem_map_of_mem Prod.snd (mem_of_lookupA hlk)
  have husrc : u ∈ st1.sources.map Prod.fst := by rw [h3]; exact humem
  obtain ⟨q, hq, hq1⟩ := List.mem_map.mp husrc
  have hlq : lookupA st1.sources u = some q.2 := by
    rw [← hq1]
    exact lookupA_of_mem_nodup hsnd hq
  simp only [copyPart, hlk, Option.getD_some, hlq] at h
  cases hcp : gw.uploadPartCopy (bucket ++ "/" ++ key) t ((q.2.length : Int) + 1) u with
  | error msg => rw [hcp] at h; cases h
  | ok v =>
    rw [hcp] at h
    cases h
    refine ⟨h1, h2, ?_, ?_, ?_⟩
    · show (addSource st1.sources u key).map Prod.fst = st1.targets.map Prod.snd
      rw [addSource_fst, h3]
    · show ∀ s k n u2, Call.uploadPartCopy s k n u2 ∈ st1.trace ++
          [Call.uploadPartCopy (bucket ++ "/" ++ key) t ((q.2.length : Int) + 1) u] →
          u2 ∈ st1.targets.map Prod.snd
      intro s k n u2 hmem
      rcases List.mem_append.mp hmem with hm | hm
      · exact h4 s k n u2 hm
      · cases List.mem_singleton.mp hm
        exact humem
    · intro p hp
      rcases mem_addSource hp with ⟨hm, hne⟩ | ⟨keys0, hm, he⟩
      · obtain ⟨ks, hk1, hk2⟩ := h5 p hm
        refine ⟨ks, ?_, hk2⟩
        show copyPairs p.1 (st1.trace ++
          [Call.uploadPartCopy (bucket ++ "/" ++ key) t ((q.2.length : Int) + 1) u])
          = taggedCalls bucket ks []
        rw [copyPairs_append, copyPairs_single_copy, if_neg (fun hh => hne hh.symm),
          hk1, List.append_nil]
      · have hqe : q = (u, keys0) :=
          pair_eq_of_fst_nodup hsnd hq hm (by rw [hq1])
        obtain ⟨ks, hk1, hk2⟩ := h5 q hq
        rw [hq1] at hk1
        refine ⟨ks ++ [key], ?_, ?_⟩
        · show copyPairs p.1 (st1.trace ++
            [Call.uploadPartCopy (bucket ++ "/" ++ key) t ((q.2.length : Int) + 1) u])
            = taggedCalls bucket (ks ++ [key]) []
          rw [he]
          show copyPairs u (st1.trace ++
            [Call.uploadPartCopy (bucket ++ "/" ++ key) t ((q.2.length : Int) + 1) u])
            = taggedCalls bucket (ks ++ [key]) []
          rw [copyPairs_append, copyPairs_single_copy, if_pos rfl, hk1,
            taggedCalls_snoc, ← hk2, hqe]
        · rw [he]
          show insertS keys0 key = List.foldl insertS [] (ks ++ [key])
          rw [List.foldl_append, ← hk2]
          have hq2e : q.2 = keys0 := by rw [hqe]
          rw [hq2e]
          rfl

theorem inv_processEntry {gw : Gateway} {pat : Pattern} {bucket : String}
    {st : DiscoSt} {e : Entry} {st2 : DiscoSt} (hinj : GwInj gw)
    (hinv : Inv gw bucket st)
    (h : processEntry gw pat bucket false st e = (st2, none)) : Inv gw bucket st2 := by
  simp only [processEntry] at h
  split at h
  · cases h; exact hinv
  · split at h
    · cases h
    · split at h
      · cases h; exact hinv
      · simp only [Bool.false_eq_true, if_false] at h
        split at h
        · cases h
        · rename_i st1 heq
          have hstep := inv_ensureUpload hinj
            (show Inv gw bucket
              { st with report := st.report ++ [(e.key, pat.replaceAll e.key)] } from hinv)
            heq
          obtain ⟨hinv1, u, hu⟩ := hstep
          exact inv_copyPart hinj hinv1 hu h

theorem inv_processEntries {gw : Gateway} {pat : Pattern} {bucket : String}
    (hinj : GwInj gw) :
    ∀ (es : List Entry) (st st2 : DiscoSt), Inv gw bucket st →
      processEntries gw pat bucket false st es = (st2, none) → Inv gw bucket st2 := by
  intro es
  induction es with
  | nil =>
    intro st st2 hinv h
    cases h
    exact hinv
  | cons e rest ih =>
    intro st st2 hinv h
    simp only [processEntries] at h
    rcases hp : processEntry gw pat bucket false st e with ⟨st1, eo⟩
    rw [hp] at h
    cases eo with
    | some m => cases h
    | none => exact ih st1 st2 (inv_processEntry hinj hinv hp) h

theorem inv_pageLoop {gw : Gateway} {pat : Pattern} {bucket : String}
    (hinj : GwInj gw) :
    ∀ (fuel : Nat) (token : Option String) (st st2 : DiscoSt), Inv gw bucket st →
      pageLoop gw pat bucket false fuel token st = some (st2, none) →
      Inv gw bucket st2 := by
  intro fuel
  induction fuel with
  | zero => intro token st st2 _ h; cases h
  | succ n ih =>
    intro token st st2 hinv h
    have hsnoc : Inv gw bucket { st with trace := st.trace ++ [Call.listObjectsV2 token] } :=
      inv_trace_snoc hinv rfl
    simp only [pageLoop] at h
    split at h
    · simp at h
    · split at h
      · exact ih token _ st2 hsnoc h
      · rename_i page hpage entries hcont
        split at h
        · simp at h
        · rename_i st3 heq
          have hinv3 : Inv gw bucket st3 :=
            inv_processEntries hinj entries _ st3 hsnoc heq
          split at h
          · cases h
            exact hinv3
          · exact ih _ st3 st2 hinv3 h

/-- C5 (amended): in every live run whose discovery pass completes (the
run result is `Ok`), against a gateway issuing distinct upload ids, the
copy calls of each session follow the reference shape `taggedCalls` for
some discovery-ordered key list `ks`, and the session's recorded source
set is the first-occurrence set of `ks`.  Whenever `ks` has no duplicate
(the listing never repeats a matched key of the session), the part
numbers passed to CopyObjectPart for that session are exactly `1..N`
with no gaps and no repeats, `N = |sourceKeys|`, in discovery order.
A repeated key instead reuses a part number (see the counterexample). -/
theorem c5_amended_part_numbers_sequential
    (gw : Gateway) (pat : Pattern) (bucket : String) (cleanup : Bool) (fuel : Nat)
    (out : RunOut) (hinj : GwInj gw)
    (hrun : mainRun gw pat bucket false cleanup fuel = some out)
    (hok : out.result = Except.ok ()) :
    ∀ u keys, (u, keys) ∈ out.sources →
      ∃ ks, copyPairs u out.trace = taggedCalls bucket ks [] ∧
        keys = List.foldl insertS [] ks ∧
        (ks.Nodup →
          keys = ks ∧
          (copyPairs u out.trace).map Prod.snd
            = (List.range keys.length).map (fun (i : Nat) => (i : Int) + 1) ∧
          (copyPairs u out.trace).map Prod.fst
            = ks.map (fun k => bucket ++ "/" ++ k)) := by
  have hinvInit : Inv gw bucket initSt := by
    refine ⟨?_, ?_, rfl, ?_, ?_⟩ <;> simp [initSt]
  rcases hpl : pageLoop gw pat bucket false fuel none initSt with _ | ⟨st, eo⟩
  · simp only [mainRun, hpl] at hrun
    cases hrun
  · cases eo with
    | some m =>
      rw [mainRun_error_path gw pat bucket cleanup fuel st m hpl] at hrun
      cases hrun
      cases hok
    | none =>
      rw [mainRun_ok_path gw pat bucket cleanup fuel st hpl] at hrun
      cases hrun
      intro u keys hmem
      have hmem2 : (u, keys) ∈ st.sources :=
        completeLoop_sources_subset gw st.targets st.sources st.trace _ hmem
      have hinv : Inv gw bucket st := inv_pageLoop hinj fuel none initSt st hinvInit hpl
      obtain ⟨ks, hk1a, hk2a⟩ := hinv.2.2.2.2 (u, keys) hmem2
      have hk1 : copyPairs u st.trace = taggedCalls bucket ks [] := hk1a
      have hk2 : keys = List.foldl insertS [] ks := hk2a
      have htr : copyPairs u
          (deleteLoop gw (completeLoop gw st.targets st.sources st.trace).1
            (completeLoop gw st.targets st.sources st.trace).2)
          = copyPairs u st.trace := by
        rw [deleteLoop_copyPairs, completeLoop_copyPairs]
      have hA : copyPairs u
          (deleteLoop gw (completeLoop gw st.targets st.sources st.trace).1
            (completeLoop gw st.targets st.sources st.trace).2)
          = taggedCalls bucket ks [] := htr.trans hk1
      refine ⟨ks, hA, hk2, ?_⟩
      intro hnd
      obtain ⟨t1, t2, t3⟩ := tagged_nodup_spec bucket ks [] hnd (by simp)
      have hke : keys = ks := by
        rw [hk2, t2]
        simp
      refine ⟨hke, ?_, ?_⟩
      · rw [hA, t1, hke]
        simp
      · rw [hA, t3]

/-- C5 witness: the amended theorem applied to the happy-path single
object run, whose upload ids are the target keys (injective creates). -/
theorem c5_amended_witness :
    ∃ out, mainRun gwHappy patAB ("bkt") false false 1 = some out ∧
      ("merged", ["a.part"]) ∈ out.sources ∧
      ∃ ks, copyPairs ("merged") out.trace = taggedCalls ("bkt") ks [] ∧
        (["a.part"] : List String) = List.foldl insertS [] ks ∧
        (ks.Nodup →
          (["a.part"] : List String) = ks ∧
          (copyPairs ("merged") out.trace).map Prod.snd
            = (List.range (["a.part"] : List String).length).map
                (fun (i : Nat) => (i : Int) + 1) ∧
          (copyPairs ("merged") out.trace).map Prod.fst
            = ks.map (fun k => ("bkt") ++ "/" ++ k)) := by
  have hinj : GwInj gwHappy := by
    intro t1 t2 u h1 h2
    have e1 : t1 = u := by injection h1
    have e2 : t2 = u := by injection h2
    rw [e1, e2]
  have hrun : mainRun gwHappy patAB ("bkt") false false 1 =
      some ⟨Except.ok (),
        [Call.listObjectsV2 none, Call.createMultipartUpload ("merged"),
         Call.uploadPartCopy ("bkt/a.part") ("merged") 1 ("merged"),
         Call.listParts ("merged") ("merged"),
         Call.completeMultipartUpload ("merged") ("merged") [],
         Call.deleteObject ("a.part")],
        [("a.part", "merged")],
        [("merged", ["a.part"])],
        [("merged", "merged")]⟩ := by
    decide
  refine ⟨_, hrun, by decide, ?_⟩
  exact c5_amended_part_numbers_sequential gwHappy patAB ("bkt") false 1 _ hinj hrun rfl
    ("merged") ["a.part"] (by decide)

end S3Concat
